import Mathlib

/-!
screenweaver: decode-to-render pipeline and per-view animation scheduler.

A shallow embedding of `src/screenweaver.c`.

* C `unsigned` / `Uint32` values are natural numbers; every place where the C
  arithmetic wraps carries an explicit reduction modulo `2 ^ 32`.
* C `int` values are integers.
* C arrays are lists, pointers that may be `NULL` are `Option`s, and the
  `next`-linked list of views is a `List View` (head of the C list first).
* Code whose behaviour the C standard leaves undefined (division by zero, a
  read past the end of an array) yields `none` (or `Fault.undefined`).
* `die` (which calls `exit(1)`) yields `Fault.die`.
* Library calls (SDL, SDL_image, libav, libc) are parameters; memory allocation and
  thread creation are taken to succeed.
* File names are C strings, lists of bytes; the text of a command-line argument is
  turned into its bytes by `c_string`.
-/

namespace ScreenWeaver

/-! ## Constants and machine integers -/

/-- Line 21: `#define VIDEO_MAX_FRAMES 300`. -/
def VIDEO_MAX_FRAMES : Nat := 300

/-- Line 22: `#define GIF_FRAME_DELAY 100` (an `int` constant). -/
def GIF_FRAME_DELAY : Int := 100

/-- Number of values of a 32-bit unsigned integer. -/
def UINT32_RANGE : Nat := 4294967296

/-- Conversion of an integer value to `Uint32` (reduction modulo `2 ^ 32`). -/
def toUint32 (z : Int) : Nat := (z % 4294967296).toNat

/-- The `Uint32` subtraction `a - b`. -/
def sub32 (a b : Nat) : Nat := toUint32 ((a : Int) - (b : Int))

/-- The `unsigned` addition `a + b`. -/
def add32 (a b : Nat) : Nat := (a + b) % 4294967296

/-! ## Data model (lines 24-82) -/

/-- Identity of an `SDL_Surface` (a CPU-side raw image). -/
abbrev Surface := Nat

/-- Identity of an `SDL_Texture` (a GPU handle). -/
abbrev Texture := Nat

/-- The `SDL_Rect` structure. -/
structure SDL_Rect where
  x : Int
  y : Int
  w : Int
  h : Int
  deriving DecidableEq, Repr

/-- Lines 34-38. -/
structure ViewConfig where
  base : String
  speed : Int
  rect : SDL_Rect
  deriving DecidableEq, Repr

/-- Lines 40-44. -/
structure Config where
  create_desktop : Bool
  view_count : Int
  views : List ViewConfig
  deriving DecidableEq, Repr

/-- Lines 46-50. `delays` and `frames` are `[]` when the C pointers are `NULL`. -/
structure Animated where
  delays : List Nat
  frames : List (Option Texture)
  count : Nat
  deriving DecidableEq, Repr

/-- Lines 52-58. `surfaces` and `delays` are `[]` when the C pointers are `NULL`. -/
structure MediaData where
  surfaces : List (Option Surface)
  delays : List Nat
  count : Nat
  is_animated : Bool
  is_gif : Bool
  deriving DecidableEq, Repr

/-- Lines 60-70, without the `next` pointer (the list structure is a `List View`). -/
structure View where
  is_anim : Bool
  is_gif : Bool
  anim : Animated
  static_tex : Option Texture
  dst : SDL_Rect
  idx : Nat
  last_ts : Nat
  speed : Int
  deriving DecidableEq, Repr

/-- Lines 78-82: the argument and output slot of one decode thread. -/
structure ThreadData where
  vc : ViewConfig
  result : Option MediaData
  index : Int
  deriving DecidableEq, Repr

/-- How a computation can fail to return normally. -/
inductive Fault where
  | die (msg : String)
  | undefined
  deriving DecidableEq, Repr

/-! ## Animation scheduler: the body of the view loop in `main` (lines 554-566) -/

/-- Lines 556-557: the value of `frame_delay`.
The conditional has type `Uint32`. In the GIF branch the `int` division
`GIF_FRAME_DELAY / v->speed` truncates toward zero and its result is converted to
`Uint32`; in the other branch `v->speed` is converted to `unsigned` and divides
`v->anim.delays[v->idx]`. -/
def frame_delay (v : View) : Option Nat :=
  if v.is_gif then
    if v.speed = 0 then none
    else some (toUint32 (Int.tdiv GIF_FRAME_DELAY v.speed))
  else
    match v.anim.delays[v.idx]? with
    | none => none
    | some d =>
      if toUint32 v.speed = 0 then none
      else some (d / toUint32 v.speed)

/-- Result of one scheduler tick: the view afterwards and whether the test of line 558
succeeded. -/
structure Step where
  view : View
  advanced : Bool
  deriving DecidableEq, Repr

/-- Lines 555-561: the scheduling part of the loop body for the view `v` at time `now`.
A view that fails the guard of line 555 is left alone. -/
def tick_step (v : View) (now : Nat) : Option Step :=
  if v.is_anim && decide (v.anim.count > 0) then
    match frame_delay v with
    | none => none
    | some d =>
      if sub32 now v.last_ts ≥ d then
        some ⟨{ v with idx := (add32 v.idx 1) % v.anim.count, last_ts := now }, true⟩
      else some ⟨v, false⟩
  else
    some ⟨v, false⟩

/-- The scheduler tick: the view after lines 555-561. -/
def view_tick (v : View) (now : Nat) : Option View :=
  (tick_step v now).map Step.view

/-- Lines 555-565: the whole loop body, the tick followed by the draw. The second
component is the non-null texture handed to `SDL_RenderCopy`, if any. -/
def render_step (v : View) (now : Nat) : Option (View × Option Texture) :=
  match view_tick v now with
  | none => none
  | some w =>
    if v.is_anim && decide (v.anim.count > 0) then
      match w.anim.frames[w.idx]? with
      | none => none
      | some t => some (w, t)
    else some (w, w.static_tex)

/-- The tick run at the successive times `nows`: the final view and the number of ticks
in which the test of line 558 succeeded. -/
def run_ticks (v : View) : List Nat → Option (View × Nat)
  | [] => some (v, 0)
  | now :: rest =>
    match tick_step v now with
    | none => none
    | some s =>
      match run_ticks s.view rest with
      | none => none
      | some (w, k) => some (w, k + (if s.advanced then 1 else 0))

/-! ## The transition rule as the specification words it (section 4.4) -/

/-- The specification's `effective_delay`: the fixed GIF frame delay (100 ms) divided by
`speed` for a GIF-sourced view, the stored delay of the current frame divided by `speed`
otherwise. -/
def spec_effective_delay (v : View) : Nat :=
  if v.is_gif then 100 / v.speed.toNat
  else (v.anim.delays.getD v.idx 0) / v.speed.toNat

/-- The specification's transition rule, not executed for a view that is not animated or
has `frame_count = 0`. -/
def spec_transition (v : View) (now : Nat) : View :=
  if v.is_anim = true ∧ v.anim.count ≠ 0 then
    if spec_effective_delay v ≤ (((now : Int) - (v.last_ts : Int)) % 4294967296).toNat then
      { v with idx := (v.idx + 1) % v.anim.count, last_ts := now }
    else v
  else v

/-- Conditions on an animated view under which its tick is defined: `speed` is a positive
`int`, `count` is an `unsigned`, the index is inside the animation and a view that is
not GIF-sourced has a stored delay for every frame. -/
def Schedulable (v : View) : Prop :=
  1 ≤ v.speed ∧ v.speed < 2147483648 ∧ v.anim.count < 4294967296 ∧
  v.idx < v.anim.count ∧ (v.is_gif = false → v.anim.count ≤ v.anim.delays.length)

instance (v : View) : Decidable (Schedulable v) := by
  unfold Schedulable; infer_instance

/-! ## Resource uploader (lines 451-477 and 509-521) -/

/-- Lines 468-472: the first `n` iterations of the upload loop, giving the contents of
`v->anim.frames` and `v->anim.delays`. -/
def upload_frames (upload : Option Surface → Option Texture) (md : MediaData) :
    Nat → Option (List (Option Texture) × List Nat)
  | 0 => some ([], [])
  | i + 1 =>
    match upload_frames upload md i with
    | none => none
    | some (fs, ds) =>
      match md.surfaces[i]?, md.delays[i]? with
      | some s, some d => some (fs ++ [upload s], ds ++ [d])
      | _, _ => none

/-- Lines 451-477. `upload` is `SDL_CreateTextureFromSurface` on the renderer, `ticks`
the value returned by `SDL_GetTicks`. The `calloc`ed view starts with every other field
zero. The function returns a view in every branch; `none` stands for undefined
behaviour, not for a `NULL` result. -/
def MediaDataToView (upload : Option Surface → Option Texture) (ticks : Nat)
    (vc : ViewConfig) (md : Option MediaData) : Option View :=
  let v : View :=
    { is_anim := false, is_gif := false, anim := ⟨[], [], 0⟩, static_tex := none,
      dst := vc.rect, idx := 0, last_ts := ticks, speed := vc.speed }
  match md with
  | none => some v
  | some md =>
    if md.count > 0 then
      if !md.is_animated then
        match md.surfaces[0]? with
        | none => none
        | some s => some { v with static_tex := upload s }
      else
        match upload_frames upload md md.count with
        | none => none
        | some (fs, ds) =>
          some { v with is_anim := true, is_gif := md.is_gif,
                        anim := ⟨ds, fs, md.count⟩ }
    else some v

/-- Lines 509-517: the upload loop of `LoadViews`. `clock i` is the value of
`SDL_GetTicks` in iteration `i`; `list` is the list built so far. Every view returned
by `MediaDataToView` is non-null, so the guard of line 512 always holds and the view is
linked in front of the list. -/
def upload_loop (upload : Option Surface → Option Texture) (clock : Nat → Nat) :
    Nat → List ThreadData → List View → Option (List View)
  | _, [], list => some list
  | i, td :: rest, list =>
    match MediaDataToView upload (clock i) td.vc td.result with
    | none => none
    | some v => upload_loop upload clock (i + 1) rest (v :: list)

/-- Lines 509-521: the upload stage of `LoadViews` on the joined thread data. -/
def LoadViews_upload (upload : Option Surface → Option Texture) (clock : Nat → Nat)
    (tds : List ThreadData) : Option (List View) :=
  upload_loop upload clock 0 tds []

/-- A result is non-empty when it is non-null and holds at least one frame. -/
def nonempty_result (md : Option MediaData) : Bool :=
  match md with
  | none => false
  | some m => decide (m.count > 0)

/-- The arrays of a decode result hold what its `count` announces. -/
def MediaData.valid (md : MediaData) : Prop :=
  md.count ≤ md.surfaces.length ∧ (md.is_animated = true → md.count ≤ md.delays.length)

instance (md : MediaData) : Decidable md.valid := by
  unfold MediaData.valid; infer_instance

/-- The well-formedness predicate of a view: an animated view has at least one frame, no
static texture and an index inside the animation; a view that is not animated has a
frame count of zero. -/
def ViewWF (v : View) : Prop :=
  (v.is_anim = true → 1 ≤ v.anim.count ∧ v.static_tex = none ∧ v.idx < v.anim.count) ∧
  (v.is_anim = false → v.anim.count = 0)

instance (v : View) : Decidable (ViewWF v) := by
  unfold ViewWF; infer_instance

/-- The arrays of a view hold exactly `count` elements. -/
def ViewArrays (v : View) : Prop :=
  v.anim.frames.length = v.anim.count ∧ v.anim.delays.length = v.anim.count

instance (v : View) : Decidable (ViewArrays v) := by
  unfold ViewArrays; infer_instance

/-! ## Configuration (lines 367-388) -/

/-- Line 369: whether the first argument is the flag `--compositor`. -/
def compositor_flag (argv : List String) : Bool :=
  decide ((argv.length : Int) > 1) && (argv[1]? == some "--compositor")

/-- Line 370: the index `off` of the first view argument. -/
def arg_offset (argv : List String) : Int :=
  if compositor_flag argv then 2 else 1

/-- Line 371: the number `args` of view arguments. -/
def arg_count (argv : List String) : Int :=
  (argv.length : Int) - arg_offset argv

/-- Lines 377-385: the view config read from the six arguments starting at `idx`.
`atoi` is the C library function. -/
def parse_view (atoi : String → Int) (argv : List String) (idx : Nat) :
    Except Fault ViewConfig :=
  match argv[idx]?, argv[idx + 1]?, argv[idx + 2]?, argv[idx + 3]?, argv[idx + 4]?,
      argv[idx + 5]? with
  | some b, some sp, some x, some y, some w, some h =>
    let speed := atoi sp
    let speed := if speed ≤ 0 then 1 else speed
    .ok { base := b, speed := speed, rect := ⟨atoi x, atoi y, atoi w, atoi h⟩ }
  | _, _, _, _, _, _ => .error Fault.undefined

/-- Lines 376-386: the iterations `i, i + 1, ..., i + n - 1` of the parsing loop. -/
def parse_views (atoi : String → Int) (argv : List String) (off : Nat) :
    Nat → Nat → Except Fault (List ViewConfig)
  | 0, _ => .ok []
  | n + 1, i =>
    match parse_view atoi argv (off + i * 6) with
    | .error e => .error e
    | .ok vc =>
      match parse_views atoi argv off n (i + 1) with
      | .error e => .error e
      | .ok rest => .ok (vc :: rest)

/-- Lines 367-388. The `int` operators `/` and `%` truncate toward zero. -/
def Parse (atoi : String → Int) (argv : List String) : Except Fault Config :=
  let args := arg_count argv
  if args < 6 ∨ Int.tmod args 6 ≠ 0 then
    .error (Fault.die "Usage: [--compositor] PATH SPEED X Y W H [...]")
  else
    let view_count := Int.tdiv args 6
    match parse_views atoi argv (arg_offset argv).toNat view_count.toNat 0 with
    | .error e => .error e
    | .ok views =>
      .ok { create_desktop := compositor_flag argv, view_count := view_count, views := views }

/-! ## Media enumeration and decoding (lines 99-238 and 390-422) -/

/-- A C string: the bytes before the terminating NUL. -/
abbrev CString := List Nat

/-- The UTF-8 bytes of one character. -/
def utf8_bytes (c : Char) : List Nat :=
  let n := c.toNat
  if n < 128 then [n]
  else if n < 2048 then [192 + n / 64, 128 + n % 64]
  else if n < 65536 then [224 + n / 4096, 128 + n / 64 % 64, 128 + n % 64]
  else [240 + n / 262144, 128 + n / 4096 % 64, 128 + n / 64 % 64, 128 + n % 64]

/-- The bytes of a list of characters. -/
def c_bytes : List Char → CString
  | [] => []
  | c :: cs => utf8_bytes c ++ c_bytes cs

/-- The C string that holds the text `s`. -/
def c_string (s : String) : CString := c_bytes s.toList

/-- C `tolower` in the "C" locale (the program never calls `setlocale`): only the bytes
`A` to `Z` change. -/
def tolower (b : Nat) : Nat := if 65 ≤ b ∧ b ≤ 90 then b + 32 else b

/-- The suffix of `s` that starts at the last occurrence of the byte `c`, as C
`strrchr`. -/
def strrchr (c : Nat) : CString → Option CString
  | [] => none
  | x :: xs =>
    match strrchr c xs with
    | some r => some r
    | none => if x = c then some (x :: xs) else none

/-- Lines 99-102: `strrchr(fn, '.')`, then `strcasecmp`, which compares the two strings
byte by byte after `tolower`. -/
def has_ext (fn : CString) (ext : String) : Bool :=
  match strrchr 46 fn with
  | none => false
  | some e => e.map tolower == (c_string ext).map tolower

/-- Lines 103-109. -/
def is_video (fn : CString) : Bool :=
  [".mp4", ".webm", ".mkv", ".avi", ".mov"].any (has_ext fn)

/-- Line 110. -/
def is_gif (fn : CString) : Bool := has_ext fn ".gif"

/-- Lines 111-118. -/
def is_image (fn : CString) : Bool :=
  [".png", ".jpg", ".jpeg", ".bmp", ".tiff", ".webp", ".tga"].any (has_ext fn)

/-- What one pass of the packet loop (lines 204-230) meets after `av_read_frame`
delivered a packet. -/
inductive Packet where
  /-- The packet is of another stream, or sending it or receiving a frame fails (the
  test of lines 205-206 is false). -/
  | skip
  /-- A frame is decoded. `scaled` tells whether line 216 calls `sws_scale` within its
  contract: the context `sws`, made at line 208 for the first decoded frame and never
  checked, is non-null and fits the size and pixel format of this frame. `surf` is what
  `SDL_CreateRGBSurfaceFrom` returns. -/
  | decoded (scaled : Bool) (surf : Option Surface)
  deriving DecidableEq, Repr

/-- A video file with a video stream: `delay` is the value `d` of line 203 (`none` when
`1000.0 / fps` does not fit a `Uint32`, so that the conversion is undefined), `packets`
the packets that `av_read_frame` delivers, in order. -/
structure VideoStream where
  delay : Option Nat
  packets : List Packet
  deriving DecidableEq, Repr

/-- What libav reports when lines 183-189 open a file. -/
inductive VideoOpen where
  /-- `avformat_open_input` or `avformat_find_stream_info` fails. -/
  | failed
  /-- The file opens but `av_find_best_stream` finds no video stream and returns a
  negative value. -/
  | no_stream
  /-- The file opens and has a video stream. -/
  | stream (st : VideoStream)
  deriving DecidableEq, Repr

/-- The file system and the decoding libraries as the decode threads see them.
`is_regular p` is `stat(p) == 0 && S_ISREG`, `opendir p` the entry names in `readdir`
order (`none` when `opendir` fails). -/
structure Host where
  is_regular : CString → Bool
  opendir : CString → Option (List CString)
  IMG_Load : CString → Option Surface
  IMG_LoadAnimation : CString → Option (List Surface)
  SDL_ConvertSurface : Surface → Option Surface
  open_video : CString → VideoOpen

/-- Lines 134-146: the `readdir` loop over the remaining entries, `a` being the paths
collected so far. `snprintf` into `char path[4096]` keeps at most 4095 bytes of
`base`, `/` and the entry name. -/
def collect_loop (base : CString) : List CString → List CString → List CString
  | [], a => a
  | name :: rest, a =>
    if name.head? = some 46 then collect_loop base rest a
    else if is_video name || is_gif name || is_image name then
      collect_loop base rest (a ++ [(base ++ [47] ++ name).take 4095])
    else collect_loop base rest a

/-- Lines 120-150. The length of the returned list is `*out_count`. -/
def collect_media (h : Host) (base : CString) : Except Fault (List CString) :=
  if h.is_regular base then .ok [base]
  else
    match h.opendir base with
    | none => .error (Fault.die "Failed to open")
    | some entries => .ok (collect_loop base entries [])

/-- Lines 163-177: the returned count with the contents of `*out` and `*delays`. A
failed load leaves both pointers as they were (`NULL`). -/
def load_gif_surfaces (h : Host) (p : CString) : Nat × List (Option Surface) × List Nat :=
  match h.IMG_LoadAnimation p with
  | none => (0, [], [])
  | some frames =>
    (frames.length, frames.map h.SDL_ConvertSurface, frames.map (fun _ => 100))

/-- Lines 204-230: the packet loop of `load_video_surfaces`. Line 216 hands the context
and the frame to `sws_scale` without a check, which is undefined outside the contract of
`sws_scale`. -/
def video_loop (conv : Surface → Option Surface) (d : Nat) :
    List Packet → Nat → List (Option Surface) → List Nat →
      Except Fault (Nat × List (Option Surface) × List Nat)
  | [], cnt, out, delays => .ok (cnt, out, delays)
  | pkt :: rest, cnt, out, delays =>
    if cnt < VIDEO_MAX_FRAMES then
      match pkt with
      | Packet.skip => video_loop conv d rest cnt out delays
      | Packet.decoded scaled surf =>
        if scaled then
          match surf with
          | some sf =>
            video_loop conv d rest (cnt + 1) (out.set cnt (conv sf)) (delays.set cnt d)
          | none => video_loop conv d rest cnt out delays
        else .error Fault.undefined
    else .ok (cnt, out, delays)

/-- Lines 179-238. Lines 189-190 use the result of `av_find_best_stream` as an index
into `fmt->streams` without a check, which is undefined when it is negative. Both
arrays are `calloc`ed with `VIDEO_MAX_FRAMES` zero entries. -/
def load_video_surfaces (h : Host) (p : CString) :
    Except Fault (Nat × List (Option Surface) × List Nat) :=
  match h.open_video p with
  | VideoOpen.failed => .ok (0, [], [])
  | VideoOpen.no_stream => .error Fault.undefined
  | VideoOpen.stream st =>
    match st.delay with
    | none => .error Fault.undefined
    | some d =>
      video_loop h.SDL_ConvertSurface d st.packets 0
        (List.replicate VIDEO_MAX_FRAMES none) (List.replicate VIDEO_MAX_FRAMES 0)

/-- Lines 390-422: the decode result that the thread stores in `td->result`, or the
fault that ends the process. -/
def LoadMediaThread (h : Host) (vc : ViewConfig) : Except Fault MediaData :=
  let md : MediaData :=
    { surfaces := [], delays := [], count := 0, is_animated := false, is_gif := false }
  match collect_media h (c_string vc.base) with
  | .error e => .error e
  | .ok arr =>
    match arr with
    | [] => .ok md
    | p :: _ =>
      if is_image p then
        match h.IMG_Load p with
        | some s => .ok { md with surfaces := [some s], count := 1, is_animated := false }
        | none => .ok md
      else
        let r := if is_gif p then .ok (load_gif_surfaces h p) else load_video_surfaces h p
        match r with
        | .error e => .error e
        | .ok r =>
          .ok { surfaces := r.2.1, delays := r.2.2, count := r.1, is_animated := true,
                is_gif := is_gif p }

/-- Lines 498-507: one decode thread per view config, joined. The threads share no state,
so they are run one after the other; `die` in any thread ends the whole process. -/
def decode_loop (h : Host) : Nat → List ViewConfig → Except Fault (List ThreadData)
  | _, [] => .ok []
  | i, vc :: rest =>
    match LoadMediaThread h vc with
    | .error e => .error e
    | .ok md =>
      match decode_loop h (i + 1) rest with
      | .error e => .error e
      | .ok tds => .ok ({ vc := vc, result := some md, index := i } :: tds)

/-- Lines 495-507: the decode phase of `LoadViews`. -/
def decode_phase (h : Host) (views : List ViewConfig) : Except Fault (List ThreadData) :=
  decode_loop h 0 views

/-- Lines 494-522. -/
def LoadViews (h : Host) (upload : Option Surface → Option Texture) (clock : Nat → Nat)
    (cfg : Config) : Except Fault (List View) :=
  match decode_phase h cfg.views with
  | .error e => .error e
  | .ok tds =>
    match LoadViews_upload upload clock tds with
    | none => .error Fault.undefined
    | some list => .ok list

/-- The locator can be opened: it is a regular file or a directory that `opendir`
opens. -/
def openable (h : Host) (base : String) : Bool :=
  h.is_regular (c_string base) || (h.opendir (c_string base)).isSome

/-- The packet is skipped or its frame is scaled within the contract of `sws_scale`. -/
def Packet.scaling_defined (pkt : Packet) : Bool :=
  match pkt with
  | Packet.skip => true
  | Packet.decoded scaled _ => scaled

/-- The video decode of an opened file stays inside defined behaviour: a video stream is
found, the frame delay fits a `Uint32` and every decoded frame is scaled within the
contract of `sws_scale`. -/
def video_defined (r : VideoOpen) : Bool :=
  match r with
  | VideoOpen.failed => true
  | VideoOpen.no_stream => false
  | VideoOpen.stream st => st.delay.isSome && st.packets.all Packet.scaling_defined

/-- The file that the decode thread of the locator `base` hands to the video decoder, if
any: the first enumerated file when it is neither an image nor a GIF by its name. -/
def video_file (h : Host) (base : String) : Option CString :=
  match collect_media h (c_string base) with
  | .error _ => none
  | .ok [] => none
  | .ok (p :: _) => if is_image p || is_gif p then none else some p

/-- The decode thread of the locator `base` stays inside defined behaviour: it hands no
file to the video decoder, or the video decode of that file is defined. -/
def decode_defined (h : Host) (base : String) : Bool :=
  match video_file h base with
  | none => true
  | some p => video_defined (h.open_video p)

/-- The packet adds no surface to the result. -/
def Packet.no_frame (pkt : Packet) : Bool :=
  match pkt with
  | Packet.skip => true
  | Packet.decoded _ surf => surf.isNone

/-- The locator can be opened but gives nothing to play: no media file is enumerated,
or the decoder of the first enumerated file returns no image, no animation, an animation
without frames, or the video file cannot be opened or delivers no packet that gives a
surface. -/
def yields_nothing (h : Host) (base : String) : Bool :=
  match collect_media h (c_string base) with
  | .error _ => false
  | .ok [] => true
  | .ok (p :: _) =>
    if is_image p then (h.IMG_Load p).isNone
    else if is_gif p then
      match h.IMG_LoadAnimation p with
      | none => true
      | some frames => frames.isEmpty
    else
      match h.open_video p with
      | VideoOpen.failed => true
      | VideoOpen.no_stream => false
      | VideoOpen.stream st => st.packets.all Packet.no_frame

/-! ## Example views used by the concrete checks -/

/-- A two-frame video-sourced view at speed 2 with stored delays 40 ms and 60 ms. -/
def sample_video : View :=
  { is_anim := true, is_gif := false, anim := ⟨[40, 60], [some 1, some 2], 2⟩,
    static_tex := none, dst := ⟨0, 0, 10, 10⟩, idx := 1, last_ts := 4294967270, speed := 2 }

/-- A GIF-sourced view of `n` frames at speed `s`, index 0, last advance at `t0`. -/
def gif_view (n : Nat) (s : Int) (t0 : Nat) : View :=
  { is_anim := true, is_gif := true,
    anim := ⟨List.replicate n 100, (List.range n).map some, n⟩,
    static_tex := none, dst := ⟨0, 0, 100, 100⟩, idx := 0, last_ts := t0, speed := s }

/-- The times `t0 + 10, t0 + 20, ..., t0 + 10 * n` as `Uint32` values: the loop idles
10 ms between two passes (line 568). -/
def tick_times (t0 n : Nat) : List Nat :=
  (List.range n).map (fun k => add32 t0 (10 * (k + 1)))

/-- The view `v` with its clock moved forward by `c` ms (modulo `2 ^ 32`) and its texture
array replaced by `fs`. -/
def retime (c : Nat) (fs : List (Option Texture)) (v : View) : View :=
  { v with last_ts := add32 c v.last_ts, anim := { v.anim with frames := fs } }

/-- The decode result of the GIF scenario: four frames tagged GIF, each with a delay of
100 ms. -/
def clip_media (s0 s1 s2 s3 : Option Surface) : MediaData :=
  { surfaces := [s0, s1, s2, s3], delays := [100, 100, 100, 100], count := 4,
    is_animated := true, is_gif := true }

/-- The view spec of the GIF scenario. -/
def clip_config : ViewConfig :=
  { base := "/media/clip.gif", speed := 2, rect := ⟨0, 0, 100, 100⟩ }

/-- A view that holds no texture and is not animated. -/
def View.empty (v : View) : Prop :=
  v.is_anim = false ∧ v.static_tex = none ∧ v.anim = ⟨[], [], 0⟩

instance (v : View) : Decidable v.empty := by
  unfold View.empty; infer_instance

/-- A static decode result holding the surface `s`. -/
def static_media (s : Surface) : MediaData :=
  { surfaces := [some s], delays := [], count := 1, is_animated := false, is_gif := false }

/-- The result left by a decode that found nothing: the zeroed `calloc` block. -/
def empty_media : MediaData :=
  { surfaces := [], delays := [], count := 0, is_animated := false, is_gif := false }

/-- An animated decode result with no frame: a GIF that `IMG_LoadAnimation` rejected. -/
def broken_gif_media : MediaData :=
  { surfaces := [], delays := [], count := 0, is_animated := true, is_gif := true }

/-- A two-frame GIF decode result. -/
def gif2_media : MediaData :=
  { surfaces := [some 11, some 12], delays := [100, 100], count := 2,
    is_animated := true, is_gif := true }

/-- The joined thread data of the three-spec scenario: a static image, a two-frame GIF
and an empty result. -/
def three_results : List ThreadData :=
  [ ⟨⟨"/media/still.png", 1, ⟨0, 0, 10, 10⟩⟩, some (static_media 10), 0⟩,
    ⟨⟨"/media/loop.gif", 1, ⟨10, 0, 10, 10⟩⟩, some gif2_media, 1⟩,
    ⟨⟨"/media/unreadable", 1, ⟨20, 0, 10, 10⟩⟩, some empty_media, 2⟩ ]

/-- An uploader that always succeeds, naming the texture after the surface. -/
def upload_ok (s : Option Surface) : Option Texture := s

/-- A decimal reader standing for `atoi` in the concrete checks: the digits read so far
are `acc`. -/
def read_digits : List Char → Nat → Nat
  | [], acc => acc
  | c :: cs, acc =>
    if c.isDigit then read_digits cs (acc * 10 + (c.toNat - 48)) else acc

/-- An optional sign followed by decimal digits, read as an integer. -/
def read_int (s : String) : Int :=
  match s.toList with
  | '-' :: cs => -(read_digits cs 0 : Int)
  | '+' :: cs => (read_digits cs 0 : Int)
  | cs => (read_digits cs 0 : Int)

/-- A stand-in for `atoi` in the concrete checks: the integer read when it is an `int`,
0 otherwise. -/
def sample_atoi (s : String) : Int :=
  if -2147483648 ≤ read_int s ∧ read_int s < 2147483648 then read_int s else 0

/-- A command line with the flag and two views, the first with a non-positive speed. -/
def sample_argv : List String :=
  ["screenweaver", "--compositor", "/media/clip.gif", "-3", "0", "0", "100", "100",
    "/media/dir", "4", "100", "0", "50", "50"]

/-- A host with a still image, a GIF, a directory holding a GIF that cannot be decoded,
an empty directory, a video whose stream gives two surfaces and an audio file that libav
opens without finding a video stream; every other path can be opened neither as file nor
as directory. -/
def sample_host : Host :=
  { is_regular := fun p =>
      p == c_string "/media/still.png" || p == c_string "/media/clip.gif" ||
      p == c_string "/media/film.mp4" || p == c_string "/media/song.mp3",
    opendir := fun p =>
      if p == c_string "/media/dir" then
        some [c_string ".hidden.png", c_string "notes.txt", c_string "b.GIF",
          c_string "a.png"]
      else if p == c_string "/media/emptydir" then some []
      else none,
    IMG_Load := fun p => if p == c_string "/media/still.png" then some 10 else none,
    IMG_LoadAnimation := fun p =>
      if p == c_string "/media/clip.gif" then some [1, 2] else none,
    SDL_ConvertSurface := fun s => some (s + 100),
    open_video := fun p =>
      if p == c_string "/media/film.mp4" then
        VideoOpen.stream ⟨some 40, [Packet.skip, Packet.decoded true (some 21),
          Packet.decoded true none, Packet.decoded true (some 22)]⟩
      else if p == c_string "/media/song.mp3" then VideoOpen.no_stream
      else VideoOpen.failed }

/-- A directory name of 4089 bytes `x`. -/
def long_dir : CString := List.replicate 4089 120

/-- The bytes of the entry name `é.png` (`é` takes two bytes). -/
def accent_png : CString := c_string "é.png"

/-- A view config for the locator `base`. -/
def config_for (base : String) : ViewConfig :=
  { base := base, speed := 1, rect := ⟨0, 0, 10, 10⟩ }

deriving instance DecidableEq for Except

/-! ## Machine-integer lemmas -/

lemma toUint32_int_pos (s : Int) (h1 : 1 ≤ s) (h2 : s < 2147483648) :
    toUint32 s = s.toNat := by
  unfold toUint32; omega

lemma gif_delay_val (s : Int) (h1 : 1 ≤ s) :
    toUint32 (Int.tdiv GIF_FRAME_DELAY s) = 100 / s.toNat := by
  unfold GIF_FRAME_DELAY
  rw [Int.tdiv_eq_ediv (by norm_num) (by omega)]
  lift s to ℕ using (by omega)
  have hc : ((100 : Int) / (s : Int)) = (((100 / s : ℕ)) : Int) := by norm_cast
  have hle : 100 / s ≤ 100 := Nat.div_le_self _ _
  rw [hc, Int.toNat_natCast]
  generalize 100 / s = k at hle
  unfold toUint32
  omega

lemma add32_succ (i n : Nat) (h : i < n) (hn : n < 4294967296) : add32 i 1 = i + 1 := by
  unfold add32; omega

lemma sub32_self (a : Nat) : sub32 a a = 0 := by
  unfold sub32 toUint32; simp

/-! ## Scheduler lemmas -/

lemma frame_delay_spec (v : View) (hs : Schedulable v) :
    frame_delay v = some (spec_effective_delay v) := by
  obtain ⟨h1, h2, _, h4, h5⟩ := hs
  unfold frame_delay spec_effective_delay
  by_cases hg : v.is_gif = true
  · have h0 : v.speed ≠ 0 := by omega
    simp [hg, h0, gif_delay_val v.speed h1]
  · have hg2 : v.is_gif = false := by simpa using hg
    have hlt : v.idx < v.anim.delays.length := lt_of_lt_of_le h4 (h5 hg2)
    have hu := toUint32_int_pos v.speed h1 h2
    have hne : ¬ (v.speed.toNat = 0) := by omega
    simp [hg2, List.getElem?_eq_getElem hlt, hu, hne, List.getD_eq_getElem _ _ hlt]

lemma tick_step_eq (v : View) (now : Nat) (ha : v.is_anim = true) (hs : Schedulable v) :
    tick_step v now =
      some (if spec_effective_delay v ≤ sub32 now v.last_ts then
        ⟨{ v with idx := (v.idx + 1) % v.anim.count, last_ts := now }, true⟩
      else ⟨v, false⟩) := by
  have hd := frame_delay_spec v hs
  obtain ⟨_, _, h3, h4, _⟩ := hs
  have hc : 0 < v.anim.count := by omega
  unfold tick_step
  simp only [ha, hc, decide_True, Bool.and_self, if_true, hd, add32_succ _ _ h4 h3]
  split <;> rfl

lemma tick_step_idle (v : View) (now : Nat) (h : ¬ (v.is_anim = true ∧ 0 < v.anim.count)) :
    tick_step v now = some ⟨v, false⟩ := by
  unfold tick_step
  have : (v.is_anim && decide (v.anim.count > 0)) = false := by
    by_cases ha : v.is_anim = true
    · have : ¬ 0 < v.anim.count := fun hc => h ⟨ha, hc⟩
      simp [ha, this]
    · simp [ha]
  simp [this]

lemma tick_step_fields (v : View) (now : Nat) (s : Step) (h : tick_step v now = some s) :
    s.view.is_anim = v.is_anim ∧ s.view.is_gif = v.is_gif ∧ s.view.anim = v.anim ∧
    s.view.static_tex = v.static_tex ∧ s.view.dst = v.dst ∧ s.view.speed = v.speed := by
  unfold tick_step at h
  split at h
  · split at h
    · exact absurd h (by simp)
    · split at h <;> · cases h; simp
  · cases h; simp

lemma run_ticks_idx (nows : List Nat) :
    ∀ v : View, v.is_anim = true → Schedulable v →
      ∃ w k, run_ticks v nows = some (w, k) ∧ w.idx = (v.idx + k) % v.anim.count ∧
        w.anim = v.anim := by
  induction nows with
  | nil =>
    intro v _ hs
    exact ⟨v, 0, rfl, by simp [Nat.mod_eq_of_lt hs.2.2.2.1], rfl⟩
  | cons now rest ih =>
    intro v ha hs
    have hstep := tick_step_eq v now ha hs
    obtain ⟨h1, h2, h3, h4, h5⟩ := hs
    by_cases hadv : spec_effective_delay v ≤ sub32 now v.last_ts
    · rw [if_pos hadv] at hstep
      have hs2 : Schedulable { v with idx := (v.idx + 1) % v.anim.count, last_ts := now } :=
        ⟨h1, h2, h3, Nat.mod_lt _ (by omega), h5⟩
      obtain ⟨w, k, hr, hi, hanim⟩ :=
        ih { v with idx := (v.idx + 1) % v.anim.count, last_ts := now } ha hs2
      refine ⟨w, k + 1, ?_, ?_, hanim⟩
      · simp [run_ticks, hstep, hr]
      · rw [hi]
        simp only [Nat.mod_add_mod]
        congr 1
        omega
    · rw [if_neg hadv] at hstep
      obtain ⟨w, k, hr, hi, hanim⟩ := ih v ha ⟨h1, h2, h3, h4, h5⟩
      exact ⟨w, k, by simp [run_ticks, hstep, hr], hi, hanim⟩

/-! ## Claims about the scheduler -/

/-- C1: the scheduler tick of the render loop is the specification's transition rule.
For an animated view with at least one frame (a positive `int` speed, an index below the
frame count, stored delays for the frames) the tick computes the delay `100 / speed` or
`delays[idx] / speed`, advances to `(idx + 1) mod frame_count` and stamps `now` when the
32-bit difference `now - last_ts` reaches the delay, and otherwise changes nothing; a view
that is not animated or has no frame is left as it is; no other field ever changes. -/
theorem tick_refines_spec_transition (v : View) (now : Nat)
    (h : v.is_anim = true → 0 < v.anim.count → Schedulable v) :
    view_tick v now = some (spec_transition v now) ∧
    (v.is_anim = true → 0 < v.anim.count →
      frame_delay v = some (if v.is_gif then 100 / v.speed.toNat
        else v.anim.delays.getD v.idx 0 / v.speed.toNat)) ∧
    (¬ (v.is_anim = true ∧ 0 < v.anim.count) → view_tick v now = some v) ∧
    (∀ w, view_tick v now = some w →
      w.is_anim = v.is_anim ∧ w.is_gif = v.is_gif ∧ w.anim = v.anim ∧
      w.static_tex = v.static_tex ∧ w.dst = v.dst ∧ w.speed = v.speed) := by
  refine ⟨?_, ?_, ?_, ?_⟩
  · by_cases hc : v.is_anim = true ∧ 0 < v.anim.count
    · have hs := h hc.1 hc.2
      have hne : v.anim.count ≠ 0 := by omega
      have hsub : sub32 now v.last_ts =
          (((now : Int) - (v.last_ts : Int)) % 4294967296).toNat := rfl
      unfold view_tick spec_transition
      rw [tick_step_eq v now hc.1 hs, hsub]
      by_cases hd : spec_effective_delay v ≤
          (((now : Int) - (v.last_ts : Int)) % 4294967296).toNat
      · simp [hd, hc.1, hne]
      · simp [hd, hc.1, hne]
    · have hn : ¬ (v.is_anim = true ∧ v.anim.count ≠ 0) := by
        intro hh; exact hc ⟨hh.1, by omega⟩
      unfold view_tick spec_transition
      rw [tick_step_idle v now hc, if_neg hn]; rfl
  · intro ha hc
    have := frame_delay_spec v (h ha hc)
    rw [this]; unfold spec_effective_delay; rfl
  · intro hc
    unfold view_tick
    rw [tick_step_idle v now hc]; rfl
  · intro w hw
    unfold view_tick at hw
    cases hst : tick_step v now with
    | none => rw [hst] at hw; exact absurd hw (by simp)
    | some s =>
      rw [hst] at hw
      have hsw : s.view = w := by simpa using hw
      rw [← hsw]
      exact tick_step_fields v now s hst

/-- Witness of C1 on a video-sourced view whose clock wraps around `2 ^ 32`. -/
theorem tick_refines_spec_transition_witness :
    view_tick sample_video 5 = some { sample_video with idx := 0, last_ts := 5 } ∧
    view_tick sample_video 5 = some (spec_transition sample_video 5) :=
  ⟨by decide, (tick_refines_spec_transition sample_video 5 (fun _ _ => by decide)).1⟩

/-- C2: looping. For an animated view with `F = count` frames (at least one) and any
starting index below `F`, every sequence of ticks runs to the end, the final index is
the starting index plus the number of advancing ticks modulo `F`, so after exactly `F`
advancing ticks the index is the starting one again, and an advancing tick from index
`F - 1` yields index 0. -/
theorem looping_returns_to_start (v : View) (nows : List Nat)
    (ha : v.is_anim = true) (hs : Schedulable v) :
    ∃ w k, run_ticks v nows = some (w, k) ∧
      w.idx = (v.idx + k) % v.anim.count ∧
      (k = v.anim.count → w.idx = v.idx) ∧
      (∀ now s, tick_step v now = some s → s.advanced = true →
        v.idx + 1 = v.anim.count → s.view.idx = 0) := by
  obtain ⟨w, k, hr, hi, _⟩ := run_ticks_idx nows v ha hs
  refine ⟨w, k, hr, hi, ?_, ?_⟩
  · intro hk
    rw [hi, hk, Nat.add_mod_right]
    exact Nat.mod_eq_of_lt hs.2.2.2.1
  · intro now s hstep hadv hlast
    rw [tick_step_eq v now ha hs] at hstep
    split at hstep
    · cases hstep
      simp [hlast]
    · cases hstep
      exact absurd hadv (by simp)

/-- Witness of C2: a two-frame video view started at index 1 is back at index 1 after a
run in which exactly two ticks advance. -/
theorem looping_returns_to_start_witness :
    run_ticks sample_video [5, 10, 15, 20, 25, 30, 35] =
      some ({ sample_video with last_ts := 25 }, 2) ∧
    ∃ w k, run_ticks sample_video [5, 10, 15, 20, 25, 30, 35] = some (w, k) ∧
      w.idx = (sample_video.idx + k) % sample_video.anim.count ∧
      (k = sample_video.anim.count → w.idx = sample_video.idx) ∧
      (∀ now s, tick_step sample_video now = some s → s.advanced = true →
        sample_video.idx + 1 = sample_video.anim.count → s.view.idx = 0) :=
  ⟨by decide,
    looping_returns_to_start sample_video [5, 10, 15, 20, 25, 30, 35] (by decide)
      (by decide)⟩

/-! ## Time translation -/

lemma sub32_add32 (c a b : Nat) : sub32 (add32 c a) (add32 c b) = sub32 a b := by
  unfold sub32 add32 toUint32; omega

lemma tick_step_retime (c : Nat) (fs : List (Option Texture)) (v : View) (now : Nat) :
    tick_step (retime c fs v) (add32 c now) =
      (tick_step v now).map (fun s => ⟨retime c fs s.view, s.advanced⟩) := by
  have hd : frame_delay (retime c fs v) = frame_delay v := rfl
  unfold tick_step
  rw [hd]
  simp only [retime, sub32_add32]
  split
  · cases frame_delay v with
    | none => rfl
    | some d =>
      simp only
      split <;> rfl
  · rfl

lemma run_ticks_retime (c : Nat) (fs : List (Option Texture)) (nows : List Nat) :
    ∀ v : View, run_ticks (retime c fs v) (nows.map (add32 c)) =
      (run_ticks v nows).map (fun p => (retime c fs p.1, p.2)) := by
  induction nows with
  | nil => intro v; rfl
  | cons now rest ih =>
    intro v
    simp only [List.map_cons, run_ticks, tick_step_retime]
    cases tick_step v now with
    | none => rfl
    | some s =>
      simp only [Option.map_some', ih]
      cases run_ticks s.view rest with
      | none => rfl
      | some p => rfl

lemma tick_times_shift (t0 n : Nat) :
    tick_times t0 n = (tick_times 0 n).map (add32 t0) := by
  unfold tick_times
  rw [List.map_map]
  apply List.map_congr_left
  intro k _
  simp only [Function.comp]
  unfold add32; omega

lemma spec_effective_delay_pos (v : View) (hs : Schedulable v)
    (hg : v.is_gif = true → v.speed ≤ 100)
    (hv : v.is_gif = false → ∀ i, i < v.anim.count → v.speed.toNat ≤ v.anim.delays.getD i 0) :
    1 ≤ spec_effective_delay v := by
  obtain ⟨h1, _, _, h4, _⟩ := hs
  have hpos : 0 < v.speed.toNat := by omega
  unfold spec_effective_delay
  by_cases hgif : v.is_gif = true
  · have := hg hgif
    simp only [hgif, if_true]
    exact Nat.div_pos (by omega) hpos
  · have hgf : v.is_gif = false := by simpa using hgif
    simp only [hgf]
    exact Nat.div_pos (hv hgf _ h4) hpos

/-- C3, counterexample: a two-frame GIF view at speed 101 has an effective delay of
`100 / 101 = 0` ms, so a second tick at the same `now` advances the index again (1, then
0), and a tick at `now = last_ts` advances it too. -/
theorem idempotence_fails_at_zero_delay :
    Schedulable (gif_view 2 101 0) ∧
    (view_tick (gif_view 2 101 0) 7).map View.idx = some 1 ∧
    ((view_tick (gif_view 2 101 0) 7).bind (fun w => view_tick w 7)).map View.idx = some 0 ∧
    (view_tick (gif_view 2 101 7) 7).map View.idx = some 1 := by
  decide

/-- C3, amended: for an animated view whose effective delay is at least 1 ms at every
frame (speed at most 100 when GIF-sourced, speed at most every stored delay otherwise), a
second tick at the same `now` changes nothing, and a tick at `now = last_ts` changes
nothing. -/
theorem tick_idempotent_of_positive_delay (v : View) (now : Nat)
    (ha : v.is_anim = true) (hs : Schedulable v)
    (hg : v.is_gif = true → v.speed ≤ 100)
    (hv : v.is_gif = false → ∀ i, i < v.anim.count → v.speed.toNat ≤ v.anim.delays.getD i 0) :
    ∃ w, view_tick v now = some w ∧ view_tick w now = some w ∧
      (now = v.last_ts → w = v) := by
  have hstep := tick_step_eq v now ha hs
  have hpos := spec_effective_delay_pos v hs hg hv
  obtain ⟨h1, h2, h3, h4, h5⟩ := hs
  by_cases hadv : spec_effective_delay v ≤ sub32 now v.last_ts
  · rw [if_pos hadv] at hstep
    have hs2 : Schedulable { v with idx := (v.idx + 1) % v.anim.count, last_ts := now } :=
      ⟨h1, h2, h3, Nat.mod_lt _ (by omega), h5⟩
    have hstep2 := tick_step_eq { v with idx := (v.idx + 1) % v.anim.count, last_ts := now }
      now ha hs2
    have hpos2 := spec_effective_delay_pos _ hs2 hg hv
    have hno : ¬ spec_effective_delay
        { v with idx := (v.idx + 1) % v.anim.count, last_ts := now } ≤ sub32 now now := by
      rw [sub32_self]; omega
    rw [if_neg hno] at hstep2
    refine ⟨{ v with idx := (v.idx + 1) % v.anim.count, last_ts := now }, ?_, ?_, ?_⟩
    · simp [view_tick, hstep]
    · simp [view_tick, hstep2]
    · intro hnow
      rw [hnow, sub32_self] at hadv
      omega
  · rw [if_neg hadv] at hstep
    exact ⟨v, by simp [view_tick, hstep], by simp [view_tick, hstep], fun _ => rfl⟩

/-- Witness of C3 amended on the two-frame video view (delays 40 and 60 ms, speed 2). -/
theorem tick_idempotent_of_positive_delay_witness :
    ∃ w, view_tick sample_video 5 = some w ∧ view_tick w 5 = some w ∧
      (5 = sample_video.last_ts → w = sample_video) :=
  tick_idempotent_of_positive_delay sample_video 5 (by decide) (by decide) (by decide)
    (by decide)

/-- C9: speed scaling. For every base delay (100 ms for a GIF-sourced view, the stored
`delays[idx]` otherwise) and every speed `s >= 1` with `2 * s` an `int`, the delay computed
at speed `2 * s` is half (integer division) the delay `base / s` computed at speed `s`.
For a GIF the thresholds at speed 1 and 2 are 100 ms and 50 ms, and over a 200 ms window
of 10 ms steps the speed-1 view makes 2 transitions and the speed-2 view makes 4. -/
theorem speed_doubling_halves_delay (v : View) (s : Int) (h1 : 1 ≤ s)
    (h2 : 2 * s < 2147483648) (hb : v.is_gif = false → v.idx < v.anim.delays.length) :
    (∃ d, frame_delay { v with speed := s } = some d ∧
      frame_delay { v with speed := 2 * s } = some (d / 2) ∧
      d = (if v.is_gif then 100 else v.anim.delays.getD v.idx 0) / s.toNat) ∧
    frame_delay (gif_view 4 1 0) = some 100 ∧
    frame_delay (gif_view 4 2 0) = some 50 ∧
    (run_ticks (gif_view 4 1 0) (tick_times 0 20)).map Prod.snd = some 2 ∧
    (run_ticks (gif_view 4 2 0) (tick_times 0 20)).map Prod.snd = some 4 := by
  refine ⟨?_, by decide, by decide, by decide, by decide⟩
  have e2 : (2 * s).toNat = s.toNat * 2 := by omega
  by_cases hg : v.is_gif = true
  · refine ⟨100 / s.toNat, ?_, ?_, by simp [hg]⟩
    · have h0 : s ≠ 0 := by omega
      simp [frame_delay, hg, h0, gif_delay_val s h1]
    · have h0 : ¬ (s = 0) := by omega
      simp [frame_delay, hg, h0, gif_delay_val (2 * s) (by omega), e2,
        Nat.div_div_eq_div_mul]
  · have hgf : v.is_gif = false := by simpa using hg
    have hlt := hb hgf
    have hu1 := toUint32_int_pos s h1 (by omega)
    have hu2 := toUint32_int_pos (2 * s) (by omega) h2
    have hne1 : ¬ (s.toNat = 0) := by omega
    have hne2 : ¬ (s.toNat * 2 = 0) := by omega
    refine ⟨v.anim.delays.getD v.idx 0 / s.toNat, ?_, ?_, by simp [hgf]⟩
    · simp [frame_delay, hgf, List.getElem?_eq_getElem hlt, hu1, hne1,
        List.getD_eq_getElem _ _ hlt]
    · simp [frame_delay, hgf, List.getElem?_eq_getElem hlt, hu2, e2, hne2,
        List.getD_eq_getElem _ _ hlt, Nat.div_div_eq_div_mul]

/-- Witness of C9: the video view with stored delay 60 ms at speeds 3 and 6. -/
theorem speed_doubling_halves_delay_witness :
    frame_delay { sample_video with speed := 3 } = some 20 ∧
    frame_delay { sample_video with speed := 6 } = some 10 ∧
    ∃ d, frame_delay { sample_video with speed := 3 } = some d ∧
      frame_delay { sample_video with speed := 2 * 3 } = some (d / 2) ∧
      d = (if sample_video.is_gif then 100 else
        sample_video.anim.delays.getD sample_video.idx 0) / (3 : Int).toNat :=
  ⟨by decide, by decide,
    (speed_doubling_halves_delay sample_video 3 (by decide) (by decide) (by decide)).1⟩

/-! ## Resource uploader lemmas -/

lemma upload_frames_eq (upload : Option Surface → Option Texture) (md : MediaData) :
    ∀ n, n ≤ md.surfaces.length → n ≤ md.delays.length →
      upload_frames upload md n = some ((md.surfaces.take n).map upload, md.delays.take n) := by
  intro n
  induction n with
  | zero => intro _ _; simp [upload_frames]
  | succ i ih =>
    intro h1 h2
    have hs : i < md.surfaces.length := by omega
    have hd : i < md.delays.length := by omega
    rw [upload_frames, ih (by omega) (by omega)]
    simp only [List.getElem?_eq_getElem hs, List.getElem?_eq_getElem hd, List.take_succ,
      Option.toList, List.map_append, List.map_cons, List.map_nil]

lemma MediaDataToView_animated (upload : Option Surface → Option Texture) (ts : Nat)
    (vc : ViewConfig) (md : MediaData) (hc : 0 < md.count) (ha : md.is_animated = true)
    (hv : md.valid) :
    MediaDataToView upload ts vc (some md) =
      some { is_anim := true, is_gif := md.is_gif,
             anim := ⟨md.delays.take md.count, (md.surfaces.take md.count).map upload,
                      md.count⟩,
             static_tex := none, dst := vc.rect, idx := 0, last_ts := ts,
             speed := vc.speed } := by
  simp [MediaDataToView, hc, ha, upload_frames_eq upload md md.count hv.1 (hv.2 ha)]

lemma MediaDataToView_static (upload : Option Surface → Option Texture) (ts : Nat)
    (vc : ViewConfig) (md : MediaData) (hc : 0 < md.count) (ha : md.is_animated = false)
    (hv : md.valid) :
    ∃ s, md.surfaces[0]? = some s ∧
    MediaDataToView upload ts vc (some md) =
      some { is_anim := false, is_gif := false, anim := ⟨[], [], 0⟩,
             static_tex := upload s, dst := vc.rect, idx := 0, last_ts := ts,
             speed := vc.speed } := by
  have h0 : 0 < md.surfaces.length := lt_of_lt_of_le hc hv.1
  refine ⟨md.surfaces[0], List.getElem?_eq_getElem h0, ?_⟩
  simp [MediaDataToView, hc, ha, List.getElem?_eq_getElem h0]

lemma MediaDataToView_empty (upload : Option Surface → Option Texture) (ts : Nat)
    (vc : ViewConfig) (md : Option MediaData) (he : nonempty_result md = false) :
    MediaDataToView upload ts vc md =
      some { is_anim := false, is_gif := false, anim := ⟨[], [], 0⟩,
             static_tex := none, dst := vc.rect, idx := 0, last_ts := ts,
             speed := vc.speed } := by
  cases md with
  | none => rfl
  | some m =>
    have : ¬ (m.count > 0) := by simpa [nonempty_result] using he
    simp [MediaDataToView, this]

lemma MediaDataToView_total (upload : Option Surface → Option Texture) (ts : Nat)
    (vc : ViewConfig) (md : Option MediaData) (hv : ∀ m, md = some m → m.valid) :
    ∃ v, MediaDataToView upload ts vc md = some v ∧ ViewWF v ∧ ViewArrays v ∧
      v.speed = vc.speed ∧ v.dst = vc.rect ∧ v.idx = 0 ∧ v.last_ts = ts ∧
      (nonempty_result md = false → v.empty) := by
  by_cases he : nonempty_result md = false
  · refine ⟨_, MediaDataToView_empty upload ts vc md he, ?_, ?_, rfl, rfl, rfl, rfl, ?_⟩
    · simp [ViewWF]
    · simp [ViewArrays]
    · intro _; simp [View.empty]
  · cases md with
    | none => exact absurd rfl he
    | some m =>
      have hc : 0 < m.count := by
        have : ¬ m.count = 0 := by simpa [nonempty_result] using he
        omega
      have hval := hv m rfl
      by_cases ha : m.is_animated = true
      · refine ⟨_, MediaDataToView_animated upload ts vc m hc ha hval, ?_, ?_, rfl, rfl, rfl,
          rfl, fun h => absurd h he⟩
        · exact ⟨fun _ => ⟨hc, rfl, hc⟩, fun h => by simp at h⟩
        · simp only [ViewArrays, List.length_map, List.length_take]
          exact ⟨Nat.min_eq_left hval.1, Nat.min_eq_left (hval.2 ha)⟩
      · have haf : m.is_animated = false := by simpa using ha
        obtain ⟨s, _, hs⟩ := MediaDataToView_static upload ts vc m hc haf hval
        refine ⟨_, hs, ?_, ?_, rfl, rfl, rfl, rfl, fun h => absurd h he⟩
        · simp [ViewWF]
        · simp [ViewArrays]

lemma render_step_empty (v : View) (now : Nat) (he : v.empty) :
    render_step v now = some (v, none) := by
  obtain ⟨h1, h2, _⟩ := he
  have ht : tick_step v now = some ⟨v, false⟩ :=
    tick_step_idle v now (by simp [h1])
  simp [render_step, view_tick, ht, h1, h2]

lemma upload_loop_spec (upload : Option Surface → Option Texture) (clock : Nat → Nat)
    (tds : List ThreadData) :
    ∀ (i : Nat) (acc : List View), (∀ td ∈ tds, ∀ m, td.result = some m → m.valid) →
      ∃ vs, upload_loop upload clock i tds acc = some (vs.reverse ++ acc) ∧
        List.Forall₂ (fun td v =>
          (∃ ts, MediaDataToView upload ts td.vc td.result = some v) ∧
          (nonempty_result td.result = false →
            v.empty ∧ ∀ now, render_step v now = some (v, none))) tds vs := by
  induction tds with
  | nil => intro i acc _; exact ⟨[], rfl, List.Forall₂.nil⟩
  | cons td rest ih =>
    intro i acc hv
    obtain ⟨v, hm, _, _, _, _, _, _, hempty⟩ :=
      MediaDataToView_total upload (clock i) td.vc td.result
        (hv td (List.mem_cons_self _ _))
    obtain ⟨vs, hl, hf⟩ := ih (i + 1) (v :: acc)
      (fun t ht => hv t (List.mem_cons_of_mem _ ht))
    refine ⟨v :: vs, ?_, List.Forall₂.cons ⟨⟨clock i, hm⟩, fun he => ?_⟩ hf⟩
    · simp [upload_loop, hm, hl]
    · exact ⟨hempty he, fun now => render_step_empty v now (hempty he)⟩

/-! ## Claims about the resource uploader -/

/-- C4: upload shape. For a decode result with `count >= 1` whose arrays hold `count`
elements, `MediaDataToView` returns a view with `dst = vc.rect`, `speed = vc.speed` and
`idx = 0`. A static result gives a view that is not animated and whose only handle
`static_tex` is the upload of `surfaces[0]`; an animated result gives `is_anim = true`,
`is_gif = md.is_gif`, `anim.count = md.count`, and for every `i < md.count` the handle
`frames[i]` is the upload of `surfaces[i]` and `delays[i] = md.delays[i]`. -/
theorem upload_shape (upload : Option Surface → Option Texture) (ts : Nat)
    (vc : ViewConfig) (md : MediaData) (hc : 1 ≤ md.count) (hv : md.valid) :
    ∃ v, MediaDataToView upload ts vc (some md) = some v ∧
      v.dst = vc.rect ∧ v.speed = vc.speed ∧ v.idx = 0 ∧
      (md.is_animated = false →
        v.is_anim = false ∧ v.anim = ⟨[], [], 0⟩ ∧
        ∃ s, md.surfaces[0]? = some s ∧ v.static_tex = upload s) ∧
      (md.is_animated = true →
        v.is_anim = true ∧ v.is_gif = md.is_gif ∧ v.anim.count = md.count ∧
        v.static_tex = none ∧ v.anim.frames.length = md.count ∧
        v.anim.delays.length = md.count ∧
        ∀ i, i < md.count → ∃ s d, md.surfaces[i]? = some s ∧ md.delays[i]? = some d ∧
          v.anim.frames[i]? = some (upload s) ∧ v.anim.delays[i]? = some d) := by
  by_cases ha : md.is_animated = true
  · refine ⟨_, MediaDataToView_animated upload ts vc md hc ha hv, rfl, rfl, rfl,
      fun h => by simp [ha] at h, fun _ => ⟨rfl, rfl, rfl, rfl, ?_, ?_, ?_⟩⟩
    · simp only [List.length_map, List.length_take]
      exact Nat.min_eq_left hv.1
    · simp only [List.length_take]
      exact Nat.min_eq_left (hv.2 ha)
    · intro i hi
      have h1 : i < md.surfaces.length := lt_of_lt_of_le hi hv.1
      have h2 : i < md.delays.length := lt_of_lt_of_le hi (hv.2 ha)
      refine ⟨md.surfaces[i], md.delays[i], List.getElem?_eq_getElem h1,
        List.getElem?_eq_getElem h2, ?_, ?_⟩
      · simp [List.getElem?_map, List.getElem?_take, hi, List.getElem?_eq_getElem h1]
      · simp [List.getElem?_take, hi, List.getElem?_eq_getElem h2]
  · have haf : md.is_animated = false := by simpa using ha
    obtain ⟨s, hs0, hs⟩ := MediaDataToView_static upload ts vc md hc haf hv
    exact ⟨_, hs, rfl, rfl, rfl, fun _ => ⟨rfl, rfl, s, hs0, rfl⟩, fun h => absurd h ha⟩

/-- Witness of C4 on the two-frame GIF result. -/
theorem upload_shape_witness :
    MediaDataToView upload_ok 7 clip_config (some gif2_media) =
      some { is_anim := true, is_gif := true, anim := ⟨[100, 100], [some 11, some 12], 2⟩,
             static_tex := none, dst := ⟨0, 0, 100, 100⟩, idx := 0, last_ts := 7,
             speed := 2 } ∧
    ∃ v, MediaDataToView upload_ok 7 clip_config (some gif2_media) = some v ∧
      v.dst = clip_config.rect ∧ v.speed = clip_config.speed ∧ v.idx = 0 ∧
      (gif2_media.is_animated = false →
        v.is_anim = false ∧ v.anim = ⟨[], [], 0⟩ ∧
        ∃ s, gif2_media.surfaces[0]? = some s ∧ v.static_tex = upload_ok s) ∧
      (gif2_media.is_animated = true →
        v.is_anim = true ∧ v.is_gif = gif2_media.is_gif ∧ v.anim.count = gif2_media.count ∧
        v.static_tex = none ∧ v.anim.frames.length = gif2_media.count ∧
        v.anim.delays.length = gif2_media.count ∧
        ∀ i, i < gif2_media.count → ∃ s d, gif2_media.surfaces[i]? = some s ∧
          gif2_media.delays[i]? = some d ∧
          v.anim.frames[i]? = some (upload_ok s) ∧ v.anim.delays[i]? = some d) :=
  ⟨by decide, upload_shape upload_ok 7 clip_config gif2_media (by decide) (by decide)⟩

/-- C5, counterexample: for the three results static image, two-frame GIF and empty
result, two results are non-empty but the registry returned by the upload stage holds
three views, the last linked one (head of the list) being the view of the empty result. -/
theorem empty_result_still_yields_view :
    (three_results.filter (fun td => nonempty_result td.result)).length = 2 ∧
    (LoadViews_upload upload_ok (fun _ => 0) three_results).map List.length = some 3 ∧
    (LoadViews_upload upload_ok (fun _ => 0) three_results).map
      (fun l => l.map (fun v => (v.is_anim, v.static_tex, v.anim.count))) =
        some [(false, none, 0), (true, none, 2), (false, some 10, 0)] := by
  decide

/-- C5, amended: the upload stage of `LoadViews` returns exactly one view for every decode
result, empty or not, so the registry has as many views as there are results (linked in
reverse order); the view of an empty result (null or `count = 0`) is the empty view
(not animated, no texture, no frame), for which the loop body draws nothing. -/
theorem registry_has_one_view_per_result (upload : Option Surface → Option Texture)
    (clock : Nat → Nat) (tds : List ThreadData)
    (hv : ∀ td ∈ tds, ∀ m, td.result = some m → m.valid) :
    ∃ views, LoadViews_upload upload clock tds = some views ∧
      views.length = tds.length ∧
      List.Forall₂ (fun td v =>
        (∃ ts, MediaDataToView upload ts td.vc td.result = some v) ∧
        (nonempty_result td.result = false →
          v.empty ∧ ∀ now, render_step v now = some (v, none))) tds views.reverse := by
  obtain ⟨vs, hl, hf⟩ := upload_loop_spec upload clock tds 0 [] hv
  refine ⟨vs.reverse, by simpa [LoadViews_upload] using hl, ?_, by simpa using hf⟩
  rw [List.length_reverse]
  exact hf.length_eq.symm

/-- Witness of C5 amended on the three-result scenario. -/
theorem registry_has_one_view_per_result_witness :
    ∃ views, LoadViews_upload upload_ok (fun _ => 0) three_results = some views ∧
      views.length = three_results.length ∧
      List.Forall₂ (fun td v =>
        (∃ ts, MediaDataToView upload_ok ts td.vc td.result = some v) ∧
        (nonempty_result td.result = false →
          v.empty ∧ ∀ now, render_step v now = some (v, none))) three_results views.reverse :=
  registry_has_one_view_per_result upload_ok (fun _ => 0) three_results (by decide)

/-! ## The well-formedness invariant -/

lemma frame_delay_defined (v : View) (h0 : v.speed ≠ 0) (hlo : -2147483648 ≤ v.speed)
    (hhi : v.speed < 2147483648) (hb : v.is_gif = false → v.idx < v.anim.delays.length) :
    ∃ d, frame_delay v = some d := by
  unfold frame_delay
  by_cases hg : v.is_gif = true
  · simp [hg, h0]
  · have hgf : v.is_gif = false := by simpa using hg
    have hu : ¬ (toUint32 v.speed = 0) := by unfold toUint32; omega
    simp [hgf, List.getElem?_eq_getElem (hb hgf), hu]

lemma tick_step_cases (v : View) (now d : Nat) (ha : v.is_anim = true)
    (hc : 0 < v.anim.count) (hd : frame_delay v = some d) :
    tick_step v now = some ⟨v, false⟩ ∨
    tick_step v now =
      some ⟨{ v with idx := (add32 v.idx 1) % v.anim.count, last_ts := now }, true⟩ := by
  unfold tick_step
  simp only [ha, hc, hd, gt_iff_lt, decide_True, Bool.and_self, if_true]
  by_cases hadv : sub32 now v.last_ts ≥ d
  · right; simp [hadv]
  · left; simp [hadv]

lemma render_step_wf (v : View) (now : Nat) (hwf : ViewWF v) (harr : ViewArrays v)
    (h0 : v.speed ≠ 0) (hlo : -2147483648 ≤ v.speed) (hhi : v.speed < 2147483648) :
    ∃ w t, view_tick v now = some w ∧ render_step v now = some (w, t) ∧
      ViewWF w ∧ ViewArrays w ∧ w.speed = v.speed := by
  by_cases ha : v.is_anim = true
  · obtain ⟨hc, hst, hidx⟩ := hwf.1 ha
    have hc0 : 0 < v.anim.count := hc
    have hb : v.is_gif = false → v.idx < v.anim.delays.length := by
      intro _; rw [harr.2]; exact hidx
    obtain ⟨d, hd⟩ := frame_delay_defined v h0 hlo hhi hb
    have hguard : (v.is_anim && decide (v.anim.count > 0)) = true := by simp [ha, hc0]
    rcases tick_step_cases v now d ha hc0 hd with h | h
    · have hfr : v.idx < v.anim.frames.length := by rw [harr.1]; exact hidx
      refine ⟨v, v.anim.frames[v.idx], by simp [view_tick, h], ?_, hwf, harr, rfl⟩
      simp [render_step, view_tick, h, hguard, List.getElem?_eq_getElem hfr]
    · have hlt : (add32 v.idx 1) % v.anim.count < v.anim.count := Nat.mod_lt _ hc0
      have hfr : (add32 v.idx 1) % v.anim.count < v.anim.frames.length := by
        rw [harr.1]; exact hlt
      refine ⟨{ v with idx := (add32 v.idx 1) % v.anim.count, last_ts := now },
        v.anim.frames[(add32 v.idx 1) % v.anim.count], by simp [view_tick, h], ?_,
        ⟨fun _ => ⟨hc, hst, hlt⟩, fun hf => hwf.2 hf⟩, harr, rfl⟩
      simp [render_step, view_tick, h, hguard, List.getElem?_eq_getElem hfr]
  · have haf : v.is_anim = false := by simpa using ha
    have h : tick_step v now = some ⟨v, false⟩ := tick_step_idle v now (by simp [haf])
    refine ⟨v, v.static_tex, by simp [view_tick, h], ?_, hwf, harr, rfl⟩
    simp [render_step, view_tick, h, haf]

lemma tick_step_preserves_wf (v : View) (now : Nat) (s : Step) (hwf : ViewWF v)
    (h : tick_step v now = some s) : ViewWF s.view := by
  unfold tick_step at h
  split at h
  · rename_i hg
    have hc : 0 < v.anim.count := by
      have := hg
      simp only [Bool.and_eq_true, decide_eq_true_eq] at this
      exact this.2
    split at h
    · exact absurd h (by simp)
    · split at h
      · cases h
        exact ⟨fun ha => ⟨(hwf.1 ha).1, (hwf.1 ha).2.1, Nat.mod_lt _ hc⟩, fun ha => hwf.2 ha⟩
      · cases h; exact hwf
  · cases h; exact hwf

/-- C7: view well-formedness is an invariant. Every view returned by `MediaDataToView`
(for a null, empty, static or animated result, an animated result with zero frames
included) is well formed and its arrays hold `count` elements, and the view of a result
with no frame is the empty view that draws nothing. Every loop body run on a well-formed
view (with a non-zero `int` speed) is defined, so its reads of `delays[idx]` and
`frames[idx]` are in bounds, and leaves a well-formed view. A well-formed view is never
both animated and holding a static texture. -/
theorem view_wellformed_invariant (upload : Option Surface → Option Texture) (ts : Nat)
    (vc : ViewConfig) (md : Option MediaData) (v : View) (now : Nat)
    (hmd : ∀ m, md = some m → m.valid)
    (hwf : ViewWF v) (harr : ViewArrays v)
    (h0 : v.speed ≠ 0) (hlo : -2147483648 ≤ v.speed) (hhi : v.speed < 2147483648) :
    (∃ w, MediaDataToView upload ts vc md = some w ∧ ViewWF w ∧ ViewArrays w ∧
      (nonempty_result md = false →
        w.empty ∧ ∀ t, render_step w t = some (w, none))) ∧
    (∃ w t, view_tick v now = some w ∧ render_step v now = some (w, t) ∧
      ViewWF w ∧ ViewArrays w) ∧
    ¬ (v.is_anim = true ∧ v.static_tex ≠ none) ∧
    (v.is_anim = true → v.idx < v.anim.delays.length ∧ v.idx < v.anim.frames.length) ∧
    (∀ (u : View) (t : Nat) (w : View), ViewWF u → view_tick u t = some w → ViewWF w) := by
  refine ⟨?_, ?_, ?_, ?_, ?_⟩
  · obtain ⟨w, hm, h1, h2, _, _, _, _, he⟩ := MediaDataToView_total upload ts vc md hmd
    exact ⟨w, hm, h1, h2, fun h => ⟨he h, fun t => render_step_empty w t (he h)⟩⟩
  · obtain ⟨w, t, h1, h2, h3, h4, _⟩ := render_step_wf v now hwf harr h0 hlo hhi
    exact ⟨w, t, h1, h2, h3, h4⟩
  · rintro ⟨ha, hs⟩
    exact hs (hwf.1 ha).2.1
  · intro ha
    have := (hwf.1 ha).2.2
    rw [harr.1, harr.2]
    exact ⟨this, this⟩
  · intro u t w hu hw
    unfold view_tick at hw
    cases hst : tick_step u t with
    | none => rw [hst] at hw; exact absurd hw (by simp)
    | some st =>
      rw [hst] at hw
      have hsw : st.view = w := by simpa using hw
      rw [← hsw]
      exact tick_step_preserves_wf u t st hu hst

/-- Witness of C7: an animated decode result with zero frames gives the empty view, and
the tick of the two-frame video view stays well formed. -/
theorem view_wellformed_invariant_witness :
    (MediaDataToView upload_ok 7 clip_config (some broken_gif_media)).map
      (fun w => (w.is_anim, w.static_tex, w.anim.count)) = some (false, none, 0) ∧
    ((∃ w, MediaDataToView upload_ok 7 clip_config (some broken_gif_media) = some w ∧
        ViewWF w ∧ ViewArrays w ∧
        (nonempty_result (some broken_gif_media) = false →
          w.empty ∧ ∀ t, render_step w t = some (w, none))) ∧
      (∃ w t, view_tick sample_video 5 = some w ∧ render_step sample_video 5 = some (w, t) ∧
        ViewWF w ∧ ViewArrays w) ∧
      ¬ (sample_video.is_anim = true ∧ sample_video.static_tex ≠ none) ∧
      (sample_video.is_anim = true →
        sample_video.idx < sample_video.anim.delays.length ∧
        sample_video.idx < sample_video.anim.frames.length) ∧
      (∀ (u : View) (t : Nat) (w : View), ViewWF u → view_tick u t = some w → ViewWF w)) :=
  ⟨by decide,
    view_wellformed_invariant upload_ok 7 clip_config (some broken_gif_media) sample_video 5
      (by decide) (by decide) (by decide) (by decide) (by decide) (by decide)⟩

/-! ## The GIF scenario -/

lemma clip_view_eq (upload : Option Surface → Option Texture) (s0 s1 s2 s3 : Option Surface)
    (t0 : Nat) (ht : t0 < 4294967296) :
    MediaDataToView upload t0 clip_config (some (clip_media s0 s1 s2 s3)) =
      some (retime t0 [upload s0, upload s1, upload s2, upload s3] (gif_view 4 2 0)) := by
  have h : add32 t0 0 = t0 := by unfold add32; omega
  have hc : 0 < (clip_media s0 s1 s2 s3).count := by simp [clip_media]
  have hv : (clip_media s0 s1 s2 s3).valid := by simp [MediaData.valid, clip_media]
  rw [MediaDataToView_animated upload t0 clip_config (clip_media s0 s1 s2 s3) hc rfl hv]
  simp [retime, gif_view, clip_media, clip_config, h, List.replicate]

/-- C10: the GIF scenario. For the view spec (`/media/clip.gif`, rect (0,0,100,100),
speed 2) and an animated GIF-tagged result of four frames with delay 100 ms,
`MediaDataToView` gives an animated view with four frames whose delay in the scheduler
is 50 ms; from `idx = 0` and `last_ts = t0`, the ticks at `t0 + 10, ..., t0 + 200`
advance the index exactly four times: it is 3 after three advances at `t0 + 150`, and
back at 0 after the fourth at `t0 + 200`. -/
theorem gif_scenario (upload : Option Surface → Option Texture)
    (s0 s1 s2 s3 : Option Surface) (t0 : Nat) (ht : t0 < 4294967296) :
    ∃ v, MediaDataToView upload t0 clip_config (some (clip_media s0 s1 s2 s3)) = some v ∧
      v.is_anim = true ∧ v.is_gif = true ∧ v.anim.count = 4 ∧
      v.anim.frames = [upload s0, upload s1, upload s2, upload s3] ∧
      v.idx = 0 ∧ v.last_ts = t0 ∧ frame_delay v = some 50 ∧
      run_ticks v (tick_times t0 15) = some ({ v with idx := 3, last_ts := add32 t0 150 }, 3) ∧
      run_ticks v (tick_times t0 19) = some ({ v with idx := 3, last_ts := add32 t0 150 }, 3) ∧
      run_ticks v (tick_times t0 20) = some ({ v with idx := 0, last_ts := add32 t0 200 }, 4) := by
  have h : add32 t0 0 = t0 := by unfold add32; omega
  have r15 : run_ticks (gif_view 4 2 0) (tick_times 0 15) =
      some ({ gif_view 4 2 0 with idx := 3, last_ts := 150 }, 3) := by decide
  have r19 : run_ticks (gif_view 4 2 0) (tick_times 0 19) =
      some ({ gif_view 4 2 0 with idx := 3, last_ts := 150 }, 3) := by decide
  have r20 : run_ticks (gif_view 4 2 0) (tick_times 0 20) =
      some ({ gif_view 4 2 0 with idx := 0, last_ts := 200 }, 4) := by decide
  refine ⟨_, clip_view_eq upload s0 s1 s2 s3 t0 ht, rfl, rfl, rfl, rfl, rfl, ?_, rfl, ?_, ?_, ?_⟩
  · simp [retime, gif_view, h]
  · rw [tick_times_shift, run_ticks_retime, r15]; rfl
  · rw [tick_times_shift, run_ticks_retime, r19]; rfl
  · rw [tick_times_shift, run_ticks_retime, r20]; rfl

/-- Witness of C10 with a clock that wraps around `2 ^ 32` during the run. -/
theorem gif_scenario_witness :
    (tick_times 4294967200 20).getLast? = some 104 ∧
    ∃ v, MediaDataToView upload_ok 4294967200 clip_config
        (some (clip_media (some 1) (some 2) (some 3) (some 4))) = some v ∧
      v.is_anim = true ∧ v.is_gif = true ∧ v.anim.count = 4 ∧
      v.anim.frames = [upload_ok (some 1), upload_ok (some 2), upload_ok (some 3),
        upload_ok (some 4)] ∧
      v.idx = 0 ∧ v.last_ts = 4294967200 ∧ frame_delay v = some 50 ∧
      run_ticks v (tick_times 4294967200 15) =
        some ({ v with idx := 3, last_ts := add32 4294967200 150 }, 3) ∧
      run_ticks v (tick_times 4294967200 19) =
        some ({ v with idx := 3, last_ts := add32 4294967200 150 }, 3) ∧
      run_ticks v (tick_times 4294967200 20) =
        some ({ v with idx := 0, last_ts := add32 4294967200 200 }, 4) :=
  ⟨by decide,
    gif_scenario upload_ok (some 1) (some 2) (some 3) (some 4) 4294967200 (by decide)⟩

/-! ## Configuration lemmas -/

lemma parse_view_ok (atoi : String → Int) (argv : List String) (idx : Nat)
    (h : idx + 5 < argv.length) :
    ∃ vc sp, parse_view atoi argv idx = .ok vc ∧ argv[idx + 1]? = some sp ∧
      vc.speed = (if 0 < atoi sp then atoi sp else 1) := by
  have h0 : idx < argv.length := by omega
  have h1 : idx + 1 < argv.length := by omega
  have h2 : idx + 2 < argv.length := by omega
  have h3 : idx + 3 < argv.length := by omega
  have h4 : idx + 4 < argv.length := by omega
  refine ⟨{ base := argv[idx],
             speed := if atoi argv[idx + 1] ≤ 0 then 1 else atoi argv[idx + 1],
             rect := ⟨atoi argv[idx + 2], atoi argv[idx + 3], atoi argv[idx + 4],
                      atoi argv[idx + 5]⟩ },
    argv[idx + 1], ?_, List.getElem?_eq_getElem h1, ?_⟩
  · simp only [parse_view, List.getElem?_eq_getElem h0, List.getElem?_eq_getElem h1,
      List.getElem?_eq_getElem h2, List.getElem?_eq_getElem h3,
      List.getElem?_eq_getElem h4, List.getElem?_eq_getElem h]
  · simp only
    by_cases hp : 0 < atoi argv[idx + 1]
    · have : ¬ atoi argv[idx + 1] ≤ 0 := by omega
      simp [hp, this]
    · have : atoi argv[idx + 1] ≤ 0 := by omega
      simp [hp, this]

lemma parse_views_ok (atoi : String → Int) (argv : List String) (off : Nat) :
    ∀ n i, off + (i + n) * 6 ≤ argv.length →
      ∃ vs, parse_views atoi argv off n i = .ok vs ∧ vs.length = n ∧
        ∀ j, j < n → ∃ vc sp, vs[j]? = some vc ∧
          argv[off + (i + j) * 6 + 1]? = some sp ∧
          vc.speed = (if 0 < atoi sp then atoi sp else 1) := by
  intro n
  induction n with
  | zero => intro i _; exact ⟨[], rfl, rfl, fun j hj => absurd hj (by omega)⟩
  | succ n ih =>
    intro i hlen
    obtain ⟨vc, sp, hvc, hsp, hspeed⟩ := parse_view_ok atoi argv (off + i * 6) (by omega)
    obtain ⟨vs, hvs, hl, hj⟩ := ih (i + 1) (by omega)
    refine ⟨vc :: vs, by simp [parse_views, hvc, hvs], by simp [hl], ?_⟩
    intro j hjn
    cases j with
    | zero => exact ⟨vc, sp, by simp, by simpa using hsp, hspeed⟩
    | succ k =>
      obtain ⟨vc2, sp2, h1, h2, h3⟩ := hj k (by omega)
      refine ⟨vc2, sp2, by simpa using h1, ?_, h3⟩
      have e : off + (i + (k + 1)) * 6 + 1 = off + (i + 1 + k) * 6 + 1 := by omega
      rw [e]; exact h2

lemma arg_offset_cases (argv : List String) : arg_offset argv = 1 ∨ arg_offset argv = 2 := by
  unfold arg_offset
  split
  · right; rfl
  · left; rfl

/-! ## Claim about the configuration -/

/-- C8: speed normalisation. For every argument vector that `Parse` accepts (the number
of arguments after the optional `--compositor` flag is a positive multiple of 6), `Parse`
yields `args / 6` view configs and the speed of view `i` is the integer `n` that `atoi`
reads from its `SPEED` argument when `n > 0` and 1 otherwise; so every view config, and
every view built from it by `MediaDataToView`, has `speed >= 1`, and neither the `int`
nor the `unsigned` divisor of the scheduler is zero. -/
theorem parse_speed_normalised (atoi : String → Int) (argv : List String)
    (hatoi : ∀ s, atoi s < 2147483648)
    (h6 : 6 ≤ arg_count argv) (hm : arg_count argv % 6 = 0) :
    ∃ cfg, Parse atoi argv = .ok cfg ∧
      cfg.view_count = arg_count argv / 6 ∧
      (cfg.views.length : Int) = cfg.view_count ∧
      ∀ i, i < cfg.views.length →
        ∃ vc sp, cfg.views[i]? = some vc ∧
          argv[(arg_offset argv).toNat + i * 6 + 1]? = some sp ∧
          vc.speed = (if 0 < atoi sp then atoi sp else 1) ∧
          1 ≤ vc.speed ∧
          ∀ (upload : Option Surface → Option Texture) (ts : Nat) (md : Option MediaData),
            (∀ m, md = some m → m.valid) →
            ∃ w, MediaDataToView upload ts vc md = some w ∧ 1 ≤ w.speed ∧
              w.speed ≠ 0 ∧ toUint32 w.speed ≠ 0 := by
  have hoff := arg_offset_cases argv
  have hargs : arg_count argv = (argv.length : Int) - arg_offset argv := rfl
  have htm : Int.tmod (arg_count argv) 6 = 0 := by
    rw [Int.tmod_eq_emod (by omega) (by norm_num)]; exact hm
  have htd : Int.tdiv (arg_count argv) 6 = arg_count argv / 6 :=
    Int.tdiv_eq_ediv (by omega) (by norm_num)
  have hcond : ¬ (arg_count argv < 6 ∨ Int.tmod (arg_count argv) 6 ≠ 0) := by
    rintro (h | h)
    · omega
    · exact h htm
  obtain ⟨vs, hvs, hl, hj⟩ := parse_views_ok atoi argv (arg_offset argv).toNat
    (arg_count argv / 6).toNat 0 (by omega)
  refine ⟨{ create_desktop := compositor_flag argv, view_count := arg_count argv / 6,
            views := vs }, ?_, rfl, ?_, ?_⟩
  · simp only [Parse, hcond, if_false, htd, hvs]
  · simp only [hl]; omega
  · intro i hi
    obtain ⟨vc, sp, h1, h2, h3⟩ := hj i (by simpa [hl] using hi)
    have hpos : 1 ≤ vc.speed := by
      rw [h3]; split <;> omega
    have hlt : vc.speed < 2147483648 := by
      rw [h3]; split
      · exact hatoi sp
      · norm_num
    refine ⟨vc, sp, h1, by simpa using h2, h3, hpos, ?_⟩
    intro upload ts md hmd
    obtain ⟨w, hw, _, _, hsp, _⟩ := MediaDataToView_total upload ts vc md hmd
    refine ⟨w, hw, by rw [hsp]; exact hpos, by rw [hsp]; omega, ?_⟩
    rw [hsp]; unfold toUint32; omega

/-- Witness of C8: a command line with the flag and two views whose `SPEED` arguments are
`-3` and `4`. -/
theorem parse_speed_normalised_witness :
    Parse sample_atoi sample_argv =
      .ok { create_desktop := true, view_count := 2,
            views := [⟨"/media/clip.gif", 1, ⟨0, 0, 100, 100⟩⟩,
                      ⟨"/media/dir", 4, ⟨100, 0, 50, 50⟩⟩] } ∧
    ∃ cfg, Parse sample_atoi sample_argv = .ok cfg ∧
      cfg.view_count = arg_count sample_argv / 6 ∧
      (cfg.views.length : Int) = cfg.view_count :=
  ⟨by decide,
    (parse_speed_normalised sample_atoi sample_argv
      (fun s => by unfold sample_atoi; split <;> omega) (by decide) (by decide)).imp
      (fun _ h => ⟨h.1, h.2.1, h.2.2.1⟩)⟩

/-! ## Decode lemmas -/

lemma video_loop_ok (conv : Surface → Option Surface) (d : Nat) (pkts : List Packet) :
    ∀ (cnt : Nat) (out : List (Option Surface)) (delays : List Nat),
      pkts.all Packet.scaling_defined = true →
      cnt ≤ out.length → cnt ≤ delays.length → out.length = VIDEO_MAX_FRAMES →
      delays.length = VIDEO_MAX_FRAMES →
      ∃ r, video_loop conv d pkts cnt out delays = .ok r ∧
        r.1 ≤ r.2.1.length ∧ r.1 ≤ r.2.2.length ∧
        (pkts.all Packet.no_frame = true → r.1 = cnt) := by
  induction pkts with
  | nil => intro cnt out delays _ h1 h2 _ _; exact ⟨_, rfl, h1, h2, fun _ => rfl⟩
  | cons pkt rest ih =>
    intro cnt out delays hs h1 h2 h3 h4
    simp only [List.all_cons, Bool.and_eq_true] at hs
    unfold video_loop
    by_cases hc : cnt < VIDEO_MAX_FRAMES
    · simp only [hc, if_true]
      cases pkt with
      | skip =>
        obtain ⟨r, hr, a, b, c⟩ := ih cnt out delays hs.2 h1 h2 h3 h4
        refine ⟨r, hr, a, b, fun hall => c ?_⟩
        simp only [List.all_cons, Bool.and_eq_true] at hall
        exact hall.2
      | decoded scaled surf =>
        have hsc : scaled = true := by simpa [Packet.scaling_defined] using hs.1
        simp only [hsc, if_true]
        cases surf with
        | none =>
          obtain ⟨r, hr, a, b, c⟩ := ih cnt out delays hs.2 h1 h2 h3 h4
          refine ⟨r, hr, a, b, fun hall => c ?_⟩
          simp only [List.all_cons, Bool.and_eq_true] at hall
          exact hall.2
        | some sf =>
          obtain ⟨r, hr, a, b, _⟩ := ih (cnt + 1) (out.set cnt (conv sf))
            (delays.set cnt d) hs.2 (by rw [List.length_set]; omega)
            (by rw [List.length_set]; omega) (by rw [List.length_set]; exact h3)
            (by rw [List.length_set]; exact h4)
          refine ⟨r, hr, a, b, fun hall => ?_⟩
          simp [Packet.no_frame] at hall
    · simp only [hc, if_false]
      exact ⟨_, rfl, h1, h2, fun _ => rfl⟩

lemma load_gif_surfaces_valid (h : Host) (p : CString) :
    (load_gif_surfaces h p).1 ≤ (load_gif_surfaces h p).2.1.length ∧
    (load_gif_surfaces h p).1 ≤ (load_gif_surfaces h p).2.2.length := by
  unfold load_gif_surfaces
  cases h.IMG_LoadAnimation p with
  | none => simp
  | some frames => simp

lemma load_video_surfaces_ok (h : Host) (p : CString)
    (hd : video_defined (h.open_video p) = true) :
    ∃ r, load_video_surfaces h p = .ok r ∧ r.1 ≤ r.2.1.length ∧ r.1 ≤ r.2.2.length ∧
      ((match h.open_video p with
        | VideoOpen.failed => true
        | VideoOpen.no_stream => false
        | VideoOpen.stream st => st.packets.all Packet.no_frame) = true → r.1 = 0) := by
  unfold load_video_surfaces
  cases ho : h.open_video p with
  | failed => exact ⟨_, rfl, by simp, by simp, fun _ => rfl⟩
  | no_stream => rw [ho] at hd; simp [video_defined] at hd
  | stream st =>
    rw [ho] at hd
    simp only [video_defined, Bool.and_eq_true] at hd
    cases hdl : st.delay with
    | none => rw [hdl] at hd; simp at hd
    | some d =>
      simp only [hdl]
      exact video_loop_ok h.SDL_ConvertSurface d st.packets 0
        (List.replicate VIDEO_MAX_FRAMES none) (List.replicate VIDEO_MAX_FRAMES 0)
        hd.2 (Nat.zero_le _) (Nat.zero_le _) (List.length_replicate _ _)
        (List.length_replicate _ _)

lemma collect_media_ok (h : Host) (base : String) (ho : openable h base = true) :
    ∃ arr, collect_media h (c_string base) = .ok arr := by
  unfold collect_media
  by_cases hr : h.is_regular (c_string base) = true
  · exact ⟨[c_string base], by simp [hr]⟩
  · cases hd : h.opendir (c_string base) with
    | none => simp [openable, hr, hd] at ho
    | some entries => exact ⟨collect_loop (c_string base) entries [], by simp [hr]⟩

lemma LoadMediaThread_ok (h : Host) (vc : ViewConfig) (ho : openable h vc.base = true)
    (hdef : decode_defined h vc.base = true) :
    ∃ md, LoadMediaThread h vc = .ok md ∧ md.valid ∧
      (yields_nothing h vc.base = true → md.count = 0) := by
  obtain ⟨arr, harr⟩ := collect_media_ok h vc.base ho
  unfold decode_defined video_file at hdef
  unfold LoadMediaThread yields_nothing
  rw [harr] at hdef ⊢
  cases arr with
  | nil => exact ⟨_, rfl, by simp [MediaData.valid], fun _ => rfl⟩
  | cons p rest =>
    by_cases hi : is_image p = true
    · cases hl : h.IMG_Load p with
      | none =>
        refine ⟨⟨[], [], 0, false, false⟩, by simp only [hi, hl, if_true], ?_, fun _ => rfl⟩
        simp [MediaData.valid]
      | some s =>
        refine ⟨⟨[some s], [], 1, false, false⟩, by simp only [hi, hl, if_true], ?_, ?_⟩
        · simp [MediaData.valid]
        · simp [hi, hl]
    · have hif : is_image p = false := by simpa using hi
      by_cases hg : is_gif p = true
      · refine ⟨⟨(load_gif_surfaces h p).2.1, (load_gif_surfaces h p).2.2,
          (load_gif_surfaces h p).1, true, true⟩,
          by simp only [hif, hg, if_true, Bool.false_eq_true, if_false], ?_, ?_⟩
        · have := load_gif_surfaces_valid h p
          exact ⟨this.1, fun _ => this.2⟩
        · simp only [hif, hg, if_true, Bool.false_eq_true, if_false]
          unfold load_gif_surfaces
          cases h.IMG_LoadAnimation p with
          | none => intro _; rfl
          | some frames =>
            intro hf
            have : frames = [] := by simpa using hf
            simp [this]
      · have hgf : is_gif p = false := by simpa using hg
        have hvd : video_defined (h.open_video p) = true := by
          simpa [hif, hgf] using hdef
        obtain ⟨r, hr, h1, h2, h3⟩ := load_video_surfaces_ok h p hvd
        refine ⟨⟨r.2.1, r.2.2, r.1, true, false⟩,
          by simp only [hif, hgf, Bool.false_eq_true, if_false, hr], ⟨h1, fun _ => h2⟩, ?_⟩
        simp only [hif, hgf, Bool.false_eq_true, if_false]
        exact h3

lemma LoadMediaThread_dies (h : Host) (vc : ViewConfig) (ho : openable h vc.base = false) :
    LoadMediaThread h vc = .error (Fault.die "Failed to open") := by
  have h1 : h.is_regular (c_string vc.base) = false := by
    cases hr : h.is_regular (c_string vc.base) with
    | false => rfl
    | true => simp [openable, hr] at ho
  have h2 : h.opendir (c_string vc.base) = none := by
    cases hd : h.opendir (c_string vc.base) with
    | none => rfl
    | some e => simp [openable, hd] at ho
  simp [LoadMediaThread, collect_media, h1, h2]

lemma decode_loop_ok (h : Host) (views : List ViewConfig) :
    ∀ k, (∀ vc ∈ views, openable h vc.base = true) →
      (∀ vc ∈ views, decode_defined h vc.base = true) →
      ∃ tds, decode_loop h k views = .ok tds ∧ tds.length = views.length ∧
        ∀ i, i < views.length → ∃ vc md, views[i]? = some vc ∧
          tds[i]? = some { vc := vc, result := some md, index := ((k + i : Nat) : Int) } ∧
          LoadMediaThread h vc = .ok md ∧ md.valid ∧
          (yields_nothing h vc.base = true → md.count = 0) := by
  induction views with
  | nil => intro k _ _; exact ⟨[], rfl, rfl, fun i hi => absurd hi (by simp)⟩
  | cons vc rest ih =>
    intro k ho hd
    obtain ⟨md, hmd, hval, hnone⟩ := LoadMediaThread_ok h vc (ho vc (List.mem_cons_self _ _))
      (hd vc (List.mem_cons_self _ _))
    obtain ⟨tds, htds, hlen, hall⟩ := ih (k + 1)
      (fun v hv => ho v (List.mem_cons_of_mem _ hv))
      (fun v hv => hd v (List.mem_cons_of_mem _ hv))
    refine ⟨{ vc := vc, result := some md, index := k } :: tds, ?_, by simp [hlen], ?_⟩
    · simp [decode_loop, hmd, htds]
    · intro i hi
      cases i with
      | zero => exact ⟨vc, md, by simp, by simp, hmd, hval, hnone⟩
      | succ j =>
        obtain ⟨vc2, md2, h1, h2, h3, h4, h5⟩ := hall j (by simpa using hi)
        refine ⟨vc2, md2, by simpa using h1, ?_, h3, h4, h5⟩
        have e : k + (j + 1) = k + 1 + j := by omega
        simpa [e] using h2

lemma decode_loop_fails (h : Host) (views : List ViewConfig) :
    ∀ k, (∃ vc ∈ views, openable h vc.base = false) →
      ∃ e, decode_loop h k views = .error e := by
  induction views with
  | nil => intro k hex; obtain ⟨vc, hvc, _⟩ := hex; exact absurd hvc (by simp)
  | cons vc rest ih =>
    intro k hex
    cases hl : LoadMediaThread h vc with
    | error e => exact ⟨e, by simp [decode_loop, hl]⟩
    | ok md =>
      have hrest : ∃ v ∈ rest, openable h v.base = false := by
        obtain ⟨v, hv, hvo⟩ := hex
        rcases List.mem_cons.mp hv with rfl | hmem
        · rw [LoadMediaThread_dies h v hvo] at hl; exact absurd hl (by simp)
        · exact ⟨v, hmem, hvo⟩
      obtain ⟨e, he⟩ := ih (k + 1) hrest
      exact ⟨e, by simp [decode_loop, hl, he]⟩

/-- A regular file that libav opens without finding a video stream takes the decode
thread into the unchecked index of lines 189-190. -/
lemma no_video_stream_is_undefined :
    decode_defined sample_host "/media/song.mp3" = false ∧
    LoadMediaThread sample_host (config_for "/media/song.mp3") = .error Fault.undefined := by
  decide

/-- A video file whose stream gives two surfaces among four packets is decoded into two
frames with the delay of the stream, in arrays of `VIDEO_MAX_FRAMES` entries. -/
lemma video_decode_example :
    (LoadMediaThread sample_host (config_for "/media/film.mp4")).toOption.map
      (fun md => md.count) = some 2 ∧
    (LoadMediaThread sample_host (config_for "/media/film.mp4")).toOption.map
      (fun md => md.surfaces.take 3) = some [some 121, some 122, none] ∧
    (LoadMediaThread sample_host (config_for "/media/film.mp4")).toOption.map
      (fun md => md.delays.take 3) = some [40, 40, 0] ∧
    (LoadMediaThread sample_host (config_for "/media/film.mp4")).toOption.map
      (fun md => md.surfaces.length) = some 300 ∧
    (LoadMediaThread sample_host (config_for "/media/film.mp4")).toOption.map
      (fun md => md.is_gif) = some false := by
  decide!

/-- The path buffer is cut by bytes: in a directory whose name has 4089 bytes the entry
`é.png` is enumerated under a path of 4095 bytes that ends in `.pn`, which is not an
image name. -/
lemma path_cut_by_bytes :
    (collect_loop long_dir [accent_png] []).map List.length = [4095] ∧
    (collect_loop long_dir [accent_png] []).map (fun p => p.drop 4091) =
      [[169, 46, 112, 110]] ∧
    (collect_loop long_dir [accent_png] []).map is_image = [false] := by
  decide!

/-! ## Claim about the decode phase -/

/-- C6, counterexample: with a still image, a locator that is neither a regular file nor
an openable directory, and a GIF, `collect_media` reaches `die` for the second spec,
and the decode phase ends the process instead of returning three results. -/
theorem unopenable_locator_terminates :
    openable sample_host "/media/nowhere" = false ∧
    LoadMediaThread sample_host (config_for "/media/nowhere") =
      .error (Fault.die "Failed to open") ∧
    decode_phase sample_host [config_for "/media/still.png", config_for "/media/nowhere",
      config_for "/media/clip.gif"] = .error (Fault.die "Failed to open") := by
  decide

/-- C6, amended: when every locator is a regular file or a directory that `opendir`
opens, and every file handed to the video decoder is decoded inside defined behaviour
(libav finds a video stream in a file it opens, the frame delay fits a `Uint32`, every
decoded frame is scaled within the contract of `sws_scale`), the decode phase returns
without reaching
`die`, with exactly one result per view spec, result `i` being the one `LoadMediaThread`
produces from spec `i`, with arrays that hold `count` elements; a spec whose directory
holds no media file or whose decoder returns no image or zero frames gets an empty
result (`count = 0`). -/
theorem decode_phase_degrades (h : Host) (views : List ViewConfig)
    (hopen : ∀ vc ∈ views, openable h vc.base = true)
    (hdef : ∀ vc ∈ views, decode_defined h vc.base = true) :
    ∃ tds, decode_phase h views = .ok tds ∧ tds.length = views.length ∧
      ∀ i, i < views.length → ∃ vc md, views[i]? = some vc ∧
        tds[i]? = some { vc := vc, result := some md, index := (i : Int) } ∧
        LoadMediaThread h vc = .ok md ∧ md.valid ∧
        (yields_nothing h vc.base = true → md.count = 0) := by
  obtain ⟨tds, h1, h2, h3⟩ := decode_loop_ok h views 0 hopen hdef
  refine ⟨tds, h1, h2, fun i hi => ?_⟩
  obtain ⟨vc, md, a, b, c, d, e⟩ := h3 i hi
  exact ⟨vc, md, a, by simpa using b, c, d, e⟩

/-- Witness of C6 amended: a still image, a directory whose first media file is a GIF
that cannot be decoded, an empty directory and a two-frame GIF give four results, the
second and third empty. -/
theorem decode_phase_degrades_witness :
    decode_phase sample_host [config_for "/media/still.png", config_for "/media/dir",
        config_for "/media/emptydir", config_for "/media/clip.gif"] =
      .ok [ ⟨config_for "/media/still.png", some (static_media 10), 0⟩,
            ⟨config_for "/media/dir", some broken_gif_media, 1⟩,
            ⟨config_for "/media/emptydir", some empty_media, 2⟩,
            ⟨config_for "/media/clip.gif",
              some ⟨[some 101, some 102], [100, 100], 2, true, true⟩, 3⟩ ] ∧
    ∃ tds, decode_phase sample_host [config_for "/media/still.png", config_for "/media/dir",
        config_for "/media/emptydir", config_for "/media/clip.gif"] = .ok tds ∧
      tds.length = 4 :=
  ⟨by decide,
    (decode_phase_degrades sample_host [config_for "/media/still.png",
      config_for "/media/dir", config_for "/media/emptydir", config_for "/media/clip.gif"]
      (by decide) (by decide)).imp (fun _ hh => ⟨hh.1, hh.2.1⟩)⟩

end ScreenWeaver
